import Mathlib

/-!
Verification of the zrepl `replication.v2` driver (`cmd/replication.v2/plan.go`).

The Go source is a two-level hierarchical state machine:

* an overall `Replication` machine with states
  Planning / PlanningError / Working / WorkingWait / Completed / ContextDone,
  driven by `Replication.Drive`, which repeatedly invokes state functions
  (`rsfPlanning`, `rsfPlanningError`, `rsfWorking`, `rsfWorkingWait`);
* a per-filesystem `FSReplication` machine with states
  Queued / Active / RetryWait / PermanentError / Completed, driven by
  `FSReplication.drive` / `FSReplication.doDrive`;
* a step executor `FSReplicationStep.do` that performs one send/receive pair
  against the endpoint pair and classifies the outcome.

This development is a shallow embedding of that code.  Endpoint behaviour
(results of `ListFilesystems`, `ListFilesystemVersions`, `Send`, `Receive`)
is supplied by oracle values/functions, so every definition is executable.
Wall-clock time (`sleepUntil`, the 10 s timers) and the mutexes are not
modelled as data; the Go `select` statements are modelled by functions from
the event that became ready to the resulting state, and lock-release windows
are modelled by the granularity of the small-step machine `mstep` below.
-/

namespace Zrepl

/-- A snapshot version: its wire-relative name (`RelName`) and creation time
(`CreationAsTime`, modelled as a totally ordered `Nat`). -/
structure FilesystemVersion where
  relName : String
  creation : Nat
deriving DecidableEq, Repr

/-- A filesystem: a path plus a mutable resume-token field. -/
structure Filesystem where
  path : String
  resumeToken : String
deriving DecidableEq, Repr

/-- Error values the driver distinguishes: the three `io` sentinel errors,
values implementing `net.Error`, the planner's typed `FilteredError`, an
error wrapping a version-algebra conflict, and all other errors. -/
inductive Err where
  | ioEOF
  | ioErrUnexpectedEOF
  | ioErrClosedPipe
  | net (msg : String)
  | filtered (msg : String)
  | conflictErr (msg : String)
  | other (msg : String)
deriving DecidableEq, Repr

/-- Go type assertion `err.(net.Error)`. -/
def Err.isNetError : Err → Bool
  | .net _ => true
  | _ => false

/-- Go type assertion `err.(FilteredError)`. -/
def Err.isFiltered : Err → Bool
  | .filtered _ => true
  | _ => false

/-- `FSReplicationStepState` from the source. -/
inductive FSReplicationStepState where
  | stepPending
  | stepRetry
  | stepPermanentError
  | stepCompleted
deriving DecidableEq, Repr

/-- One replication step: `from` (absent for a full send) and `to`, plus the
step state and the carried error.  (`fsrep` back-pointer and the mutex are
represented structurally.)  Go fields `from`, `to`; `from` is a Lean keyword,
so the fields are named `fromVer` and `toVer`. -/
structure FSReplicationStep where
  state : FSReplicationStepState
  fromVer : Option FilesystemVersion
  toVer : FilesystemVersion
  err : Option Err
deriving DecidableEq, Repr

/-- `FSReplicationState` from the source (a bit-flag enum in Go). -/
inductive FSReplicationState where
  | fsQueued
  | fsActive
  | fsRetryWait
  | fsPermanentError
  | fsCompleted
deriving DecidableEq, Repr

/-- The bit-flag value of each `FSReplicationState` constant
(`1 << iota` in the source). -/
def FSReplicationState.flag : FSReplicationState → Nat
  | .fsQueued => 1
  | .fsActive => 2
  | .fsRetryWait => 4
  | .fsPermanentError => 8
  | .fsCompleted => 16

/-- `FSReplication`: the per-filesystem machine.  The mutex is not data. -/
structure FSReplication where
  state : FSReplicationState
  fs : Filesystem
  permanentError : Option Err
  completed : List FSReplicationStep
  pending : List FSReplicationStep
  active : Option FSReplicationStep
deriving DecidableEq, Repr

/-- `replicationQueueItem`: one `FSReplication` plus its retry counter.
The Go counter is an `int` that is only ever zeroed or incremented, so it is
modelled as a `Nat`. -/
structure ReplicationQueueItem where
  retriesSinceLastError : Nat
  fsr : FSReplication
deriving DecidableEq, Repr

/-- `SendReq` (Go zero value of a string field is `""`). -/
structure SendReq where
  filesystem : String
  fromField : String
  toField : String
  resumeToken : String
deriving DecidableEq, Repr

/-- `ReceiveReq`. -/
structure ReceiveReq where
  filesystem : String
  clearResumeToken : Bool
deriving DecidableEq, Repr

/-- Oracle for one `Sender.Send` call: either an error, or a result with
`UsedResumeToken` and whether a (non-nil) stream was returned. -/
inductive SendCallResult where
  | err (e : Err)
  | ok (usedResumeToken : Bool) (streamPresent : Bool)
deriving DecidableEq, Repr

/-- Oracle for one full step execution: the `Send` result and, when
`Receive` is reached, its result (`none` = success, `some e` = error). -/
structure StepOutcome where
  send : SendCallResult
  receive : Option Err
deriving DecidableEq, Repr

/-- The step executor's error classification (`updateStateError` in
`FSReplicationStep.do`): the three `io` sentinel errors and `net.Error`
values yield `StepRetry`; everything else yields `StepPermanentError`. -/
def updateStateError (e : Err) : FSReplicationStepState :=
  match e with
  | .ioEOF => .stepRetry
  | .ioErrUnexpectedEOF => .stepRetry
  | .ioErrClosedPipe => .stepRetry
  | _ => if e.isNetError then .stepRetry else .stepPermanentError

/-- The send-request construction of `FSReplicationStep.do` (lines building
`sr`): include a live resume token if present; otherwise a full send names
`to` (in the request's `From` field, per the source's protocol FIXME) or an
incremental send names both `from` and `to`. -/
def mkSendReq (fs : Filesystem) (s : FSReplicationStep) : SendReq :=
  if fs.resumeToken ≠ "" then
    { filesystem := fs.path, fromField := "", toField := "", resumeToken := fs.resumeToken }
  else
    match s.fromVer with
    | none =>
      { filesystem := fs.path, fromField := s.toVer.relName, toField := "", resumeToken := "" }
    | some f =>
      { filesystem := fs.path, fromField := f.relName, toField := s.toVer.relName, resumeToken := "" }

/-- Everything observable about one execution of `FSReplicationStep.do`:
the returned step state, the updated step (state and carried error), the
updated filesystem (resume token cleared), the send request issued, and the
receive request when `Receive` was reached. -/
structure StepDoResult where
  state : FSReplicationStepState
  step : FSReplicationStep
  fs : Filesystem
  sendReq : SendReq
  receiveReq : Option ReceiveReq
deriving DecidableEq, Repr

/-- `FSReplicationStep.do`: clear the filesystem's resume token (the
source does this unconditionally, with a FIXME), build the send request,
call `Send`; a nil stream is a protocol-violation error; otherwise build the
receive request with `ClearResumeToken = !UsedResumeToken` and call
`Receive`; classify any error with `updateStateError`, record it on the
step, and on success mark the step `StepCompleted` with a nil error. -/
def FSReplicationStep.doStep (s : FSReplicationStep) (fsArg : Filesystem)
    (o : StepOutcome) : StepDoResult :=
  let fs : Filesystem := { fsArg with resumeToken := "" }
  let sr := mkSendReq fs s
  match o.send with
  | .err e =>
    { state := updateStateError e, step := { s with state := updateStateError e, err := some e },
      fs := fs, sendReq := sr, receiveReq := none }
  | .ok usedRT streamPresent =>
    if !streamPresent then
      let e : Err := .other "send request did not return a stream, broken endpoint implementation"
      { state := updateStateError e, step := { s with state := updateStateError e, err := some e },
        fs := fs, sendReq := sr, receiveReq := none }
    else
      let rr : ReceiveReq := { filesystem := fs.path, clearResumeToken := !usedRT }
      match o.receive with
      | some e =>
        { state := updateStateError e, step := { s with state := updateStateError e, err := some e },
          fs := fs, sendReq := sr, receiveReq := some rr }
      | none =>
        { state := .stepCompleted, step := { s with state := .stepCompleted, err := none },
          fs := fs, sendReq := sr, receiveReq := some rr }

/-- C5: the executor classifies a `Send` error, a nil stream, a `Receive`
error, and success as the claim states. -/
theorem step_executor_classification (s : FSReplicationStep) (fsA : Filesystem)
    (e : Err) (rcv : Option Err) (u : Bool) :
    ((s.doStep fsA { send := .err e, receive := rcv }).state = updateStateError e) ∧
    ((s.doStep fsA { send := .ok u false, receive := rcv }).state = .stepPermanentError) ∧
    ((s.doStep fsA { send := .ok u true, receive := some e }).state = updateStateError e) ∧
    ((s.doStep fsA { send := .ok u true, receive := none }).state = .stepCompleted) ∧
    (updateStateError e = .stepRetry ↔
      (e = .ioEOF ∨ e = .ioErrUnexpectedEOF ∨ e = .ioErrClosedPipe ∨ e.isNetError = true)) ∧
    (updateStateError e = .stepRetry ∨ updateStateError e = .stepPermanentError) := by
  refine ⟨rfl, rfl, rfl, rfl, ?_, ?_⟩
  · cases e <;> simp [updateStateError, Err.isNetError]
  · cases e <;> simp [updateStateError, Err.isNetError]

/-- C9: `FSReplicationStep.do` builds the send request from the (possibly
resume-token-carrying) filesystem as the spec describes, and because the
executor clears `fs.ResumeToken` unconditionally at step entry, the request
it actually issues always has an empty resume token. -/
theorem send_request_construction (fsA : Filesystem) (s : FSReplicationStep)
    (o : StepOutcome) :
    (fsA.resumeToken ≠ "" →
      mkSendReq fsA s = { filesystem := fsA.path, fromField := "", toField := "",
                          resumeToken := fsA.resumeToken }) ∧
    ((s.doStep fsA o).sendReq = mkSendReq { fsA with resumeToken := "" } s) ∧
    ((s.doStep fsA o).sendReq.resumeToken = "") ∧
    ((s.doStep fsA o).fs.resumeToken = "") ∧
    (s.fromVer = none →
      (s.doStep fsA o).sendReq = { filesystem := fsA.path, fromField := s.toVer.relName,
                                   toField := "", resumeToken := "" }) ∧
    (∀ f, s.fromVer = some f →
      (s.doStep fsA o).sendReq = { filesystem := fsA.path, fromField := f.relName,
                                   toField := s.toVer.relName, resumeToken := "" }) := by
  have hreq : (s.doStep fsA o).sendReq = mkSendReq { fsA with resumeToken := "" } s := by
    rcases o with ⟨send, receive⟩
    rcases send with e | ⟨u, st⟩
    · rfl
    · cases st
      · rfl
      · cases receive <;> rfl
  have hfs : (s.doStep fsA o).fs.resumeToken = "" := by
    rcases o with ⟨send, receive⟩
    rcases send with e | ⟨u, st⟩
    · rfl
    · cases st
      · rfl
      · cases receive <;> rfl
  refine ⟨fun h => ?_, hreq, ?_, hfs, fun h => ?_, fun f h => ?_⟩
  · simp [mkSendReq, h]
  · rw [hreq]; cases hv : s.fromVer <;> simp [mkSendReq, hv]
  · rw [hreq]; simp [mkSendReq, h]
  · rw [hreq]; simp [mkSendReq, h]

/-- C9 witness: the theorem applied at a concrete step and filesystem. -/
theorem send_request_construction_witness :
    (let fsA : Filesystem := { path := "tank/a", resumeToken := "tok" }
     let s : FSReplicationStep :=
       { state := .stepPending, fromVer := none,
         toVer := { relName := "@v2", creation := 2 }, err := none }
     mkSendReq fsA s = { filesystem := "tank/a", fromField := "", toField := "",
                         resumeToken := "tok" } ∧
     (s.doStep fsA { send := .ok false true, receive := none }).sendReq =
       { filesystem := "tank/a", fromField := "@v2", toField := "", resumeToken := "" }) := by
  refine ⟨?_, ?_⟩
  · exact (send_request_construction { path := "tank/a", resumeToken := "tok" }
      { state := .stepPending, fromVer := none,
        toVer := { relName := "@v2", creation := 2 }, err := none }
      { send := .ok false true, receive := none }).1 (by decide)
  · exact (send_request_construction { path := "tank/a", resumeToken := "tok" }
      { state := .stepPending, fromVer := none,
        toVer := { relName := "@v2", creation := 2 }, err := none }
      { send := .ok false true, receive := none }).2.2.2.2.1 rfl

/-- The loop guard mask of `FSReplication.drive`:
`FSRetryWait|FSPermanentError|FSCompleted`. -/
def driveMask : Nat :=
  FSReplicationState.fsRetryWait.flag ||| FSReplicationState.fsPermanentError.flag |||
    FSReplicationState.fsCompleted.flag

/-- `FSReplication.doDrive`: one transition of the per-filesystem machine.
`PermanentError` and `Completed` return unchanged; `RetryWait` becomes
`Queued`; `Queued` promotes the head of `pending` to `active` when `active`
is nil (or completes when `pending` is empty) and becomes `Active`;
`Active` executes the active step via `FSReplicationStep.do` (the outcome
supplied by the oracle value `o`) and applies the step's result.
`none` models the Go nil-pointer dereference of `f.active.do` when `active`
is nil in `Active`, and the impossible `StepPending` executor result; both
are unreachable from well-formed states. -/
def FSReplication.doDrive (f : FSReplication) (o : StepOutcome) : Option FSReplication :=
  match f.state with
  | .fsPermanentError => some f
  | .fsCompleted => some f
  | .fsRetryWait => some { f with state := .fsQueued }
  | .fsQueued =>
    match f.active with
    | none =>
      match f.pending with
      | [] => some { f with state := .fsCompleted }
      | st :: rest => some { f with active := some st, pending := rest, state := .fsActive }
    | some _ => some { f with state := .fsActive }
  | .fsActive =>
    match f.active with
    | none => none
    | some st =>
      let res := st.doStep f.fs o
      match res.state with
      | .stepCompleted =>
        some { f with fs := res.fs, completed := f.completed ++ [res.step], active := none,
                      state := if f.pending.isEmpty then .fsCompleted else .fsQueued }
      | .stepRetry =>
        some { f with fs := res.fs, active := some res.step, state := .fsRetryWait }
      | .stepPermanentError =>
        some { f with fs := res.fs, active := some res.step, state := .fsPermanentError }
      | .stepPending => none

/-- The executor never returns `StepPending`. -/
theorem doStep_state_ne_pending (s : FSReplicationStep) (fsA : Filesystem) (o : StepOutcome) :
    (s.doStep fsA o).state ≠ .stepPending := by
  rcases o with ⟨send, receive⟩
  rcases send with e | ⟨u, st⟩
  · cases e <;> simp [FSReplicationStep.doStep, updateStateError, Err.isNetError]
  · cases st
    · simp [FSReplicationStep.doStep, updateStateError, Err.isNetError]
    · rcases receive with _ | e
      · simp [FSReplicationStep.doStep]
      · cases e <;> simp [FSReplicationStep.doStep, updateStateError, Err.isNetError]

/-- Termination measure for the `drive` loop. -/
def FSReplication.driveMeasure (f : FSReplication) : Nat :=
  2 * f.pending.length + (if f.active.isSome then 2 else 0) +
    (match f.state with
     | .fsActive => 1
     | .fsQueued => 2
     | _ => 0)

/-- Each `doDrive` transition out of `Queued`/`Active` strictly decreases the
measure. -/
theorem doDrive_measure_lt (f f' : FSReplication) (o : StepOutcome)
    (hg : f.state = .fsQueued ∨ f.state = .fsActive)
    (h : f.doDrive o = some f') : f'.driveMeasure < f.driveMeasure := by
  rcases hg with hs | hs
  · simp only [FSReplication.doDrive, hs] at h
    rcases ha : f.active with _ | st
    · rw [ha] at h
      rcases hp : f.pending with _ | ⟨st₁, rest⟩
      · rw [hp] at h
        simp only [Option.some.injEq] at h; subst h
        simp [FSReplication.driveMeasure, hs, ha, hp] <;> omega
      · rw [hp] at h
        simp only [Option.some.injEq] at h; subst h
        simp [FSReplication.driveMeasure, hs, ha, hp] <;> omega
    · rw [ha] at h
      simp only [Option.some.injEq] at h; subst h
      simp [FSReplication.driveMeasure, hs, ha] <;> omega
  · simp only [FSReplication.doDrive, hs] at h
    rcases ha : f.active with _ | st
    · rw [ha] at h; exact absurd h (by simp)
    · rw [ha] at h
      rcases hres : (st.doStep f.fs o).state with _ | _ | _ | _ <;>
          simp only [hres] at h
      · exact absurd h (by simp)
      · simp only [Option.some.injEq] at h; subst h
        simp [FSReplication.driveMeasure, hs, ha] <;> omega
      · simp only [Option.some.injEq] at h; subst h
        simp [FSReplication.driveMeasure, hs, ha] <;> omega
      · simp only [Option.some.injEq] at h; subst h
        rcases hp : f.pending with _ | ⟨st₁, rest⟩ <;>
          simp [FSReplication.driveMeasure, hs, ha, hp] <;> omega

/-- States for which the `drive` loop guard is false are exactly the
terminal-for-now states. -/
theorem driveGuard_false (s : FSReplicationState) (h : ¬ s.flag &&& driveMask = 0) :
    s = .fsRetryWait ∨ s = .fsPermanentError ∨ s = .fsCompleted := by
  cases s
  · exact absurd (by decide) h
  · exact absurd (by decide) h
  · simp
  · simp
  · simp

/-- States for which the `drive` loop guard is true are exactly `Queued` and
`Active`. -/
theorem driveGuard_iff (s : FSReplicationState) :
    s.flag &&& driveMask = 0 ↔ (s = .fsQueued ∨ s = .fsActive) := by
  cases s <;> simp [FSReplicationState.flag, driveMask] <;> decide

/-- `FSReplication.drive`: run `doDrive` until the state is in
`FSRetryWait|FSPermanentError|FSCompleted`.  The step-outcome oracle `o` is
indexed by the number of step executions performed so far (`k`); the index
advances exactly when `doDrive` runs in `Active` and hence consumes an
outcome.  `none` propagates the unreachable cases of `doDrive`. -/
def FSReplication.drive (f : FSReplication) (o : Nat → StepOutcome) (k : Nat) :
    Option (FSReplication × Nat) :=
  if hg : f.state.flag &&& driveMask = 0 then
    match hd : f.doDrive (o k) with
    | none => none
    | some f' => f'.drive o (if f.state = .fsActive then k + 1 else k)
  else
    some (f, k)
termination_by f.driveMeasure
decreasing_by
  exact doDrive_measure_lt f f' (o k) ((driveGuard_iff f.state).mp hg) hd

/-- Well-formedness of a per-filesystem machine: in `Active` there is an
active step. -/
def fsWF (f : FSReplication) : Prop := f.state = .fsActive → f.active.isSome

/-- `doDrive` preserves well-formedness and never hits its unreachable
branches on well-formed states. -/
theorem doDrive_wf (f : FSReplication) (o : StepOutcome) (hwf : fsWF f) :
    ∃ f', f.doDrive o = some f' ∧ fsWF f' := by
  rcases hs : f.state with _ | _ | _ | _ | _
  case fsQueued =>
    rcases ha : f.active with _ | st
    · rcases hp : f.pending with _ | ⟨st₁, rest⟩
      · refine ⟨{ f with state := .fsCompleted }, ?_, ?_⟩
        · simp only [FSReplication.doDrive, hs, ha, hp]
        · intro hc; simp at hc
      · refine ⟨{ f with active := some st₁, pending := rest, state := .fsActive }, ?_, ?_⟩
        · simp only [FSReplication.doDrive, hs, ha, hp]
        · intro _; simp
    · refine ⟨{ f with state := .fsActive }, ?_, ?_⟩
      · simp only [FSReplication.doDrive, hs, ha]
      · intro _; simp [ha]
  case fsActive =>
    rcases ha : f.active with _ | st
    · exact absurd (hwf hs) (by simp [ha])
    · rcases hres : (st.doStep f.fs o).state with _ | _ | _ | _
      case stepPending => exact absurd hres (doStep_state_ne_pending st f.fs o)
      case stepRetry =>
        refine ⟨{ f with fs := (st.doStep f.fs o).fs,
                         active := some (st.doStep f.fs o).step,
                         state := .fsRetryWait }, ?_, ?_⟩
        · simp only [FSReplication.doDrive, hs, ha, hres]
        · intro hc; simp at hc
      case stepPermanentError =>
        refine ⟨{ f with fs := (st.doStep f.fs o).fs,
                         active := some (st.doStep f.fs o).step,
                         state := .fsPermanentError }, ?_, ?_⟩
        · simp only [FSReplication.doDrive, hs, ha, hres]
        · intro hc; simp at hc
      case stepCompleted =>
        refine ⟨{ f with fs := (st.doStep f.fs o).fs,
                         completed := f.completed ++ [(st.doStep f.fs o).step],
                         active := none,
                         state := if f.pending.isEmpty then .fsCompleted else .fsQueued }, ?_, ?_⟩
        · simp only [FSReplication.doDrive, hs, ha, hres]
        · intro hc
          rcases hpe : f.pending.isEmpty <;> simp [hpe] at hc
  case fsRetryWait =>
    refine ⟨{ f with state := .fsQueued }, ?_, ?_⟩
    · simp only [FSReplication.doDrive, hs]
    · intro hc; simp at hc
  case fsPermanentError =>
    refine ⟨f, ?_, hwf⟩
    simp only [FSReplication.doDrive, hs]
  case fsCompleted =>
    refine ⟨f, ?_, hwf⟩
    simp only [FSReplication.doDrive, hs]

/-- C6: on a well-formed `FSReplication` (finite pending list, every step
execution returning an outcome — the oracle is total), `drive` terminates
(it is a total function here, and never hits the modelled panic) and returns
a state in `{RetryWait, PermanentError, Completed}`; and `Completed` /
`PermanentError` are absorbing: `doDrive` on them returns the machine
unchanged, so every further call within the run yields the same state. -/
theorem drive_terminal_and_absorbing (f : FSReplication) (o : Nat → StepOutcome) (k : Nat)
    (hwf : fsWF f) :
    (∃ f' k', f.drive o k = some (f', k') ∧
      (f'.state = .fsRetryWait ∨ f'.state = .fsPermanentError ∨ f'.state = .fsCompleted)) ∧
    (∀ g : FSReplication, ∀ og : StepOutcome,
      g.state = .fsPermanentError ∨ g.state = .fsCompleted → g.doDrive og = some g) := by
  constructor
  · suffices H : ∀ n (g : FSReplication) (k₀ : Nat), g.driveMeasure ≤ n → fsWF g →
        ∃ f' k', g.drive o k₀ = some (f', k') ∧
          (f'.state = .fsRetryWait ∨ f'.state = .fsPermanentError ∨ f'.state = .fsCompleted) by
      exact H f.driveMeasure f k le_rfl hwf
    intro n
    induction n with
    | zero =>
      intro g k₀ hle hwfg
      by_cases hg : g.state.flag &&& driveMask = 0
      · obtain ⟨f', hd, _⟩ := doDrive_wf g (o k₀) hwfg
        have hlt := doDrive_measure_lt g f' (o k₀) ((driveGuard_iff g.state).mp hg) hd
        omega
      · refine ⟨g, k₀, ?_, driveGuard_false g.state hg⟩
        rw [FSReplication.drive]; simp only [hg, dif_neg, not_false_iff]
    | succ n ih =>
      intro g k₀ hle hwfg
      by_cases hg : g.state.flag &&& driveMask = 0
      · obtain ⟨f', hd, hwf'⟩ := doDrive_wf g (o k₀) hwfg
        have hlt := doDrive_measure_lt g f' (o k₀) ((driveGuard_iff g.state).mp hg) hd
        obtain ⟨f'', k'', hdrive, hstate⟩ :=
          ih f' (if g.state = .fsActive then k₀ + 1 else k₀) (by omega) hwf'
        refine ⟨f'', k'', ?_, hstate⟩
        rw [FSReplication.drive]
        simp only [hg, dif_pos]
        split
        · rename_i heq; rw [hd] at heq; exact absurd heq (by simp)
        · rename_i f₀ heq; rw [hd] at heq
          simp only [Option.some.injEq] at heq; subst heq
          exact hdrive
      · refine ⟨g, k₀, ?_, driveGuard_false g.state hg⟩
        rw [FSReplication.drive]; simp only [hg, dif_neg, not_false_iff]
  · intro g og hg
    rcases hg with hg | hg <;> rw [FSReplication.doDrive, hg]

/-- C6 witness: a concrete one-step filesystem driven to `Completed`. -/
theorem drive_terminal_and_absorbing_witness :
    (let f : FSReplication :=
      { state := .fsQueued, fs := { path := "tank/a", resumeToken := "" },
        permanentError := none, completed := [],
        pending := [{ state := .stepPending, fromVer := none,
                      toVer := { relName := "@v2", creation := 2 }, err := none }],
        active := none }
     ∃ f' k', f.drive (fun _ => { send := .ok false true, receive := none }) 0 = some (f', k') ∧
       (f'.state = .fsRetryWait ∨ f'.state = .fsPermanentError ∨ f'.state = .fsCompleted)) := by
  exact (drive_terminal_and_absorbing
    { state := .fsQueued, fs := { path := "tank/a", resumeToken := "" },
      permanentError := none, completed := [],
      pending := [{ state := .stepPending, fromVer := none,
                    toVer := { relName := "@v2", creation := 2 }, err := none }],
      active := none }
    (fun _ => { send := .ok false true, receive := none }) 0 (by intro h; cases h)).1

/-- C10: a step that returns `StepRetry` leaves the per-filesystem machine's
active pointer on that same step (with `from`/`to` unchanged, only state and
error updated) and does not return it to `pending`; `RetryWait` re-enters
`Queued` with `active` and `pending` untouched; `Queued` with a non-nil
active step re-enters `Active` without promoting anything; the head of
`pending` is promoted exactly when `active` is nil. -/
theorem retry_keeps_active_step (f : FSReplication) (o : StepOutcome) :
    (∀ st, f.state = .fsActive → f.active = some st → (st.doStep f.fs o).state = .stepRetry →
      f.doDrive o = some { f with fs := (st.doStep f.fs o).fs,
                                  active := some (st.doStep f.fs o).step,
                                  state := .fsRetryWait } ∧
        (st.doStep f.fs o).step.fromVer = st.fromVer ∧
        (st.doStep f.fs o).step.toVer = st.toVer) ∧
    (f.state = .fsRetryWait → f.doDrive o = some { f with state := .fsQueued }) ∧
    (∀ st, f.state = .fsQueued → f.active = some st →
      f.doDrive o = some { f with state := .fsActive }) ∧
    (∀ h t, f.state = .fsQueued → f.active = none → f.pending = h :: t →
      f.doDrive o = some { f with active := some h, pending := t, state := .fsActive }) := by
  have hpreserve : ∀ st : FSReplicationStep,
      (st.doStep f.fs o).step.fromVer = st.fromVer ∧ (st.doStep f.fs o).step.toVer = st.toVer := by
    intro st
    rcases o with ⟨send, receive⟩
    rcases send with e | ⟨u, strm⟩
    · exact ⟨rfl, rfl⟩
    · cases strm
      · exact ⟨rfl, rfl⟩
      · cases receive <;> exact ⟨rfl, rfl⟩
  refine ⟨fun st hs ha hr => ⟨?_, hpreserve st⟩, fun hs => ?_, fun st hs ha => ?_,
    fun h t hs ha hp => ?_⟩
  · rw [FSReplication.doDrive, hs, ha]
    simp only [hr]
  · rw [FSReplication.doDrive, hs]
  · rw [FSReplication.doDrive, hs, ha]
  · rw [FSReplication.doDrive, hs, ha, hp]

/-- C10 witness: a concrete retrying step is retained as active with its
endpoints unchanged, and a `Queued` machine with a non-nil active step does
not promote from pending. -/
theorem retry_keeps_active_step_witness :
    (let st : FSReplicationStep :=
      { state := .stepPending, fromVer := some { relName := "@v1", creation := 1 },
        toVer := { relName := "@v2", creation := 2 }, err := none }
     let f : FSReplication :=
      { state := .fsActive, fs := { path := "tank/a", resumeToken := "" },
        permanentError := none, completed := [], pending := [], active := some st }
     let o : StepOutcome := { send := .err .ioEOF, receive := none }
     (f.doDrive o = some { f with fs := (st.doStep f.fs o).fs,
                                  active := some (st.doStep f.fs o).step,
                                  state := .fsRetryWait } ∧
       (st.doStep f.fs o).step.fromVer = st.fromVer ∧
       (st.doStep f.fs o).step.toVer = st.toVer) ∧
     ({ f with state := .fsRetryWait } : FSReplication).doDrive o =
        some { f with state := .fsQueued } ∧
     ({ f with state := .fsQueued } : FSReplication).doDrive o =
        some { f with state := .fsActive }) := by
  refine ⟨retry_keeps_active_step _ _ |>.1 _ rfl rfl (by decide), ?_, ?_⟩
  · exact (retry_keeps_active_step _ { send := .err .ioEOF, receive := none }).2.1 rfl
  · exact (retry_keeps_active_step _ { send := .err .ioEOF, receive := none }).2.2.1 _ rfl rfl

/-- `nextStepDate` (defined by the source only in `FSQueued`, enforced by a
panic): the creation time of `pending[0].to`.  The `[]` case models the Go
index-out-of-range panic and is unreachable for queue items built by the
planner, whose `Queued` filesystems always carry at least one step. -/
def FSReplication.nextStepDate (f : FSReplication) : Nat :=
  match f.pending with
  | [] => 0
  | st :: _ => st.toVer.creation

/-- `statePrio` from the sort closure in `rsfWorking`: `FSQueued ↦ 0`,
`FSRetryWait ↦ 1`.  The source panics on any other state (such items never
appear in the working queue); they are mapped to `2` here. -/
def statePrio (x : ReplicationQueueItem) : Nat :=
  match x.fsr.state with
  | .fsQueued => 0
  | .fsRetryWait => 1
  | _ => 2

/-- The `less` closure passed to `sort.Slice` in `rsfWorking`: primary key
state priority (`Queued < RetryWait`); among `Queued` items earlier
`nextStepDate()`; among `RetryWait` items smaller `retriesSinceLastError`.
The source's `panic("should not be reached")` branch is mapped to
`false`. -/
def itemLess (a b : ReplicationQueueItem) : Bool :=
  if statePrio a ≠ statePrio b then
    decide (statePrio a < statePrio b)
  else if a.fsr.state = .fsQueued then
    decide (a.fsr.nextStepDate < b.fsr.nextStepDate)
  else if a.fsr.state = .fsRetryWait then
    decide (a.retriesSinceLastError < b.retriesSinceLastError)
  else
    false

/-- The secondary sort key of an item under its own priority class. -/
def secKey (x : ReplicationQueueItem) : Nat :=
  match x.fsr.state with
  | .fsQueued => x.fsr.nextStepDate
  | .fsRetryWait => x.retriesSinceLastError
  | _ => 0

/-- `itemLess` is the lexicographic strict order on `(statePrio, secKey)`. -/
theorem itemLess_iff (a b : ReplicationQueueItem) :
    itemLess a b = true ↔
      (statePrio a < statePrio b ∨ (statePrio a = statePrio b ∧ secKey a < secKey b)) := by
  rcases hsa : a.fsr.state with _ | _ | _ | _ | _ <;>
    rcases hsb : b.fsr.state with _ | _ | _ | _ | _ <;>
      simp [itemLess, statePrio, secKey, hsa, hsb] <;> omega

/-- The non-strict order `¬ less b a` used to model the postcondition of
`sort.Slice` (Go's sort produces a permutation that is sorted with respect
to the `less` closure). -/
def itemLe (a b : ReplicationQueueItem) : Prop := itemLess b a = false

instance : DecidableRel itemLe := fun a b => instDecidableEqBool (itemLess b a) false

/-- `itemLe` as a lexicographic non-strict comparison. -/
theorem itemLe_iff (a b : ReplicationQueueItem) :
    itemLe a b ↔
      (statePrio a < statePrio b ∨ (statePrio a = statePrio b ∧ secKey a ≤ secKey b)) := by
  unfold itemLe
  rw [← Bool.not_eq_true, not_iff_comm, itemLess_iff]
  constructor
  · intro h; omega
  · intro h; omega

instance : IsTotal ReplicationQueueItem itemLe :=
  ⟨fun a b => by
    rw [itemLe_iff, itemLe_iff]
    omega⟩

instance : IsTrans ReplicationQueueItem itemLe :=
  ⟨fun a b c hab hbc => by
    rw [itemLe_iff] at hab hbc ⊢
    omega⟩

/-- `ReplicationState` from the source (a bit-flag enum in Go). -/
inductive ReplicationState where
  | planning
  | planningError
  | working
  | workingWait
  | completed
  | contextDone
deriving DecidableEq, Repr

/-- The bit-flag value of each `ReplicationState` constant. -/
def ReplicationState.flag : ReplicationState → Nat
  | .planning => 1
  | .planningError => 2
  | .working => 4
  | .workingWait => 8
  | .completed => 16
  | .contextDone => 32

/-- The four overall state functions that exist in the source. -/
inductive StateHandler where
  | hPlanning
  | hPlanningError
  | hWorking
  | hWorkingWait
deriving DecidableEq, Repr

/-- `ReplicationState.rsf`: the state-function table indexed by the trailing
zeros of the state's flag; `Completed` and `ContextDone` map to the nil
entries, on which the `Drive` loop exits. -/
def ReplicationState.rsf : ReplicationState → Option StateHandler
  | .planning => some .hPlanning
  | .planningError => some .hPlanningError
  | .working => some .hWorking
  | .workingWait => some .hWorkingWait
  | .completed => none
  | .contextDone => none

/-- The overall `Replication` machine state.  The mutex, the `sleepUntil`
wall-clock timestamp and the logger are not modelled as data. -/
structure Replication where
  state : ReplicationState
  pending : List ReplicationQueueItem
  completed : List ReplicationQueueItem
  active : Option ReplicationQueueItem
  planningError : Option Err
  contextError : Option Err
deriving DecidableEq, Repr

/-- A conflict reported by `IncrementalPath` (the version algebra lives in a
different source file; only its result shape matters to the planner). -/
structure Conflict where
  msg : String
deriving DecidableEq, Repr

/-- Oracle for one pass of `rsfPlanning`: the results of the endpoint list
calls, and the (pure) `IncrementalPath` / `resolveConflict` collaborators,
which are defined outside this source file and are abstracted as function
parameters. -/
structure PlanEnv where
  senderFilesystems : Except Err (List Filesystem)
  receiverFilesystems : Except Err (List Filesystem)
  senderVersions : String → Except Err (List FilesystemVersion)
  receiverVersions : String → Except Err (List FilesystemVersion)
  incrementalPath : List FilesystemVersion → List FilesystemVersion →
    Option (List FilesystemVersion) × Option Conflict
  resolveConflict : Conflict → Option (List FilesystemVersion) × String

/-- `newReplicationQueueItemPermanentError`. -/
def newReplicationQueueItemPermanentError (fs : Filesystem) (e : Option Err) :
    ReplicationQueueItem :=
  { retriesSinceLastError := 0,
    fsr := { state := .fsPermanentError, fs := fs, permanentError := e,
             completed := [], pending := [], active := none } }

/-- The step list built by `rsfPlanning` from an incremental path: a
single-element path yields one full-send step `(nil, path[0])`; otherwise
one step `(path[i], path[i+1])` per adjacent pair (an empty path yields no
steps). -/
def stepsOfPath (path : List FilesystemVersion) : List FSReplicationStep :=
  match path with
  | [v] => [{ state := .stepPending, fromVer := none, toVer := v, err := none }]
  | _ =>
    (path.zip path.tail).map fun pr =>
      { state := .stepPending, fromVer := some pr.1, toVer := pr.2, err := none }

/-- `buildNewFSReplication` + `AddStep`* + `Complete`: a queue item with
retry counter `0` whose filesystem is `FSQueued` when it has pending steps
and `FSCompleted` otherwise. -/
def mkQueueItem (fs : Filesystem) (path : List FilesystemVersion) : ReplicationQueueItem :=
  let steps := stepsOfPath path
  { retriesSinceLastError := 0,
    fsr := { state := if steps.isEmpty then .fsCompleted else .fsQueued,
             fs := fs, permanentError := none,
             completed := [], pending := steps, active := none } }

/-- What the planning loop body does with one sender filesystem. -/
inductive PlanFsResult where
  | skip
  | toCompleted (q : ReplicationQueueItem)
  | toPending (q : ReplicationQueueItem)

/-- The receiver-version listing for one filesystem during planning:
`rfsvs` is the receiver's version list when the receiver has the
filesystem (`receiverFSExists`), gathered from
`Receiver().ListFilesystemVersions`; a `FilteredError` from that call means
the receiver ignores the filesystem (`.ok none`, the Go `continue`); when
the receiver lacks the filesystem, the empty version list. -/
def planReceiverVersions (env : PlanEnv) (rfss : List Filesystem) (fs : Filesystem) :
    Except Err (Option (List FilesystemVersion)) :=
  if rfss.any (fun rfs => rfs.path = fs.path) then
    match env.receiverVersions fs.path with
    | .error e => if e.isFiltered then .ok none else .error e
    | .ok vs => .ok (some vs)
  else .ok (some [])

/-- The tail of the planning-loop body: compute the incremental path,
consulting `resolveConflict` on conflict; a nil path → a permanent-error
item carrying the conflict; otherwise build the item and bucket it by its
built state (`FSCompleted` → completed, `FSQueued` → pending; the source
panics on any other built state, which construction rules out — the final
catch-all branch is unreachable). -/
def planPath (env : PlanEnv) (fs : Filesystem)
    (rfsvs sfsvs : List FilesystemVersion) : PlanFsResult :=
  let pc := env.incrementalPath rfsvs sfsvs
  let path : Option (List FilesystemVersion) :=
    match pc.2 with
    | some c => (env.resolveConflict c).1
    | none => pc.1
  match path with
  | none =>
    .toCompleted (newReplicationQueueItemPermanentError fs
      (pc.2.map fun c => Err.conflictErr c.msg))
  | some p =>
    let qitem := mkQueueItem fs p
    match qitem.fsr.state with
    | .fsCompleted => .toCompleted qitem
    | .fsQueued => .toPending qitem
    | _ => .toCompleted qitem

/-- The body of the planning loop in `rsfPlanning` for one sender
filesystem: list its sender versions (error → planning error); `≤ 1`
versions → a permanent-error item filed to `completed`; list receiver
versions via `planReceiverVersions` (a skipped filesystem propagates as
`.skip`); then plan via `planPath`. -/
def planFilesystem (env : PlanEnv) (rfss : List Filesystem) (fs : Filesystem) :
    Except Err PlanFsResult :=
  match env.senderVersions fs.path with
  | .error e => .error e
  | .ok sfsvs =>
    if sfsvs.length ≤ 1 then
      .ok (.toCompleted (newReplicationQueueItemPermanentError fs
        (some (.other "sender does not have any versions"))))
    else
      match planReceiverVersions env rfss fs with
      | .error e => .error e
      | .ok none => .ok .skip
      | .ok (some rfsvs) => .ok (planPath env fs rfsvs sfsvs)

/-- The planning loop of `rsfPlanning` over the sender filesystems,
accumulating the `pending` and `completed` buckets and aborting on the
first planning error. -/
def planLoop (env : PlanEnv) (rfss : List Filesystem) :
    List Filesystem → List ReplicationQueueItem → List ReplicationQueueItem →
    Except Err (List ReplicationQueueItem × List ReplicationQueueItem)
  | [], pending, completed => .ok (pending, completed)
  | fs :: rest, pending, completed =>
    match planFilesystem env rfss fs with
    | .error e => .error e
    | .ok .skip => planLoop env rfss rest pending completed
    | .ok (.toCompleted q) => planLoop env rfss rest pending (completed ++ [q])
    | .ok (.toPending q) => planLoop env rfss rest (pending ++ [q]) completed

/-- `rsfPlanning`: list both filesystem sets, plan every sender filesystem,
and on success install the new `pending`/`completed` buckets, clear the
planning error and enter `Working`; on any (non-filtered) endpoint error
record it and enter `PlanningError` (`handlePlanningError`). -/
def rsfPlanning (env : PlanEnv) (r : Replication) : Replication :=
  match env.senderFilesystems with
  | .error e => { r with planningError := some e, state := .planningError }
  | .ok sfss =>
    match env.receiverFilesystems with
    | .error e => { r with planningError := some e, state := .planningError }
    | .ok rfss =>
      match planLoop env rfss sfss [] [] with
      | .error e => { r with planningError := some e, state := .planningError }
      | .ok (pending, completed) =>
        { r with completed := completed, pending := pending,
                 planningError := none, state := .working }

/-- The events a blocked `select` in a wait state can observe: cancellation
(`ctx.Done()`, carrying `ctx.Err()`), the 10 s timer firing, or a value
arriving on the `retryNow` trigger channel. -/
inductive WaitEvent where
  | ctxDone (e : Err)
  | timerFired
  | retryNowSignal
deriving DecidableEq, Repr

/-- The `select` of `rsfPlanningError`: it has exactly two cases —
cancellation (→ `ContextDone`, recording `ctx.Err()`) and the timer
(→ `Planning`).  `retryNow` is not among its channels, so its delivery does
not unblock the wait (`none`). -/
def rsfPlanningErrorSelect (we : WaitEvent) (r : Replication) : Option Replication :=
  match we with
  | .ctxDone e => some { r with state := .contextDone, contextError := some e }
  | .timerFired => some { r with state := .planning }
  | .retryNowSignal => none

/-- The `select` of `rsfWorkingWait`: exactly two cases — cancellation
(→ `ContextDone`, recording `ctx.Err()`) and the timer (→ `Working`).
The `retryNow` channel passed to `Drive` is not read by any state function
in this source, so its delivery does not unblock the wait (`none`). -/
def rsfWorkingWaitSelect (we : WaitEvent) (r : Replication) : Option Replication :=
  match we with
  | .ctxDone e => some { r with state := .contextDone, contextError := some e }
  | .timerFired => some { r with state := .working }
  | .retryNowSignal => none

/-- Control position of the driver between observable instants (instants at
which no lock of the replication run is held, so a status observer could
read the state).  `rsfWorking` is split into its lock-release windows:
`atLoop` is the `Drive` loop boundary between two state-function calls;
`selected` is inside `rsfWorking` after the first updater closure (active
item chosen) and before the per-filesystem drive; `driving` is inside
`FSReplication.drive` between `doDrive` iterations (the per-filesystem lock
is released around each step execution); `afterDrive` is after the drive
loop returned and before `rsfWorking`'s final updater closure. -/
inductive DriverPhase where
  | atLoop
  | selected
  | driving
  | afterDrive
deriving DecidableEq, Repr

/-- The full machine state: the shared `Replication` plus the driver's
control position. -/
structure MState where
  rep : Replication
  phase : DriverPhase
deriving DecidableEq, Repr

/-- External events consumed by one micro-step: the planning oracle, a wait
event delivered to a blocked `select`, the outcome of one step execution,
or an internal control step that consumes nothing. -/
inductive MEvent where
  | planAnswers (env : PlanEnv)
  | waitEv (we : WaitEvent)
  | stepOutcome (o : StepOutcome)
  | tick

/-- A placeholder outcome for `doDrive` transitions out of non-`Active`
states, which never reach the step executor and ignore their outcome
argument. -/
def unusedOutcome : StepOutcome := { send := .ok false false, receive := none }

/-- One micro-step of the driver.  `none` means the event does not produce a
transition: the event does not match the control position, the machine is
terminal (`rsf` is nil and `Drive` exits), the event is a `retryNow`
delivery no `select` consumes, or the source would panic.

* `atLoop`: dispatch on `rep.state.rsf` as the `Drive` loop does.
  `rsfPlanning` consumes the planning oracle; the two wait states consume a
  wait event; `rsfWorking` begins with its first updater closure: with an
  active item it proceeds to inspect it, otherwise it completes (empty
  `pending`) or sorts `pending` with the `less` closure (modelled as an
  insertion sort with respect to `¬less`, a sorted permutation as
  `sort.Slice` guarantees), removes the head and makes it active.
* `selected`: `rsfWorking` inspects the active item: `FSRetryWait` →
  overall `WorkingWait`; `FSQueued` → enter the per-filesystem drive loop;
  any other state panics in the source.
* `driving`: while the drive guard holds, run one `doDrive` (consuming a
  step outcome exactly in `FSActive`); once the guard fails, exit the drive
  loop.
* `afterDrive`: `rsfWorking`'s final updater closure, branching on the
  returned filesystem state exactly as the source does: `FSQueued` → reset
  the retry counter; `FSRetryWait` → increment it; `FSPermanentError` or
  `FSCompleted` → append the item to `completed` and clear `active`;
  anything else panics. -/
def mstep (m : MState) (ev : MEvent) : Option MState :=
  match m.phase, ev with
  | .atLoop, .planAnswers env =>
    match m.rep.state.rsf with
    | some .hPlanning => some { rep := rsfPlanning env m.rep, phase := .atLoop }
    | _ => none
  | .atLoop, .waitEv we =>
    match m.rep.state.rsf with
    | some .hPlanningError =>
      (rsfPlanningErrorSelect we m.rep).map fun r' => { rep := r', phase := .atLoop }
    | some .hWorkingWait =>
      (rsfWorkingWaitSelect we m.rep).map fun r' => { rep := r', phase := .atLoop }
    | _ => none
  | .atLoop, .tick =>
    match m.rep.state.rsf with
    | some .hWorking =>
      match m.rep.active with
      | some _ => some { rep := m.rep, phase := .selected }
      | none =>
        if m.rep.pending.isEmpty then
          some { rep := { m.rep with state := .completed }, phase := .atLoop }
        else
          match List.insertionSort itemLe m.rep.pending with
          | [] => none
          | h :: t =>
            some { rep := { m.rep with active := some h, pending := t }, phase := .selected }
    | _ => none
  | .selected, .tick =>
    match m.rep.active with
    | none => none
    | some a =>
      if a.fsr.state = .fsRetryWait then
        some { rep := { m.rep with state := .workingWait }, phase := .atLoop }
      else if a.fsr.state = .fsQueued then
        some { rep := m.rep, phase := .driving }
      else none
  | .driving, .tick =>
    match m.rep.active with
    | none => none
    | some a =>
      if a.fsr.state.flag &&& driveMask = 0 then
        if a.fsr.state = .fsActive then none
        else
          (a.fsr.doDrive unusedOutcome).map fun f' =>
            { rep := { m.rep with active := some { a with fsr := f' } }, phase := .driving }
      else some { rep := m.rep, phase := .afterDrive }
  | .driving, .stepOutcome o =>
    match m.rep.active with
    | none => none
    | some a =>
      if a.fsr.state = .fsActive then
        (a.fsr.doDrive o).map fun f' =>
          { rep := { m.rep with active := some { a with fsr := f' } }, phase := .driving }
      else none
  | .afterDrive, .tick =>
    match m.rep.active with
    | none => none
    | some a =>
      if a.fsr.state.flag &&& FSReplicationState.fsQueued.flag ≠ 0 then
        some { rep := { m.rep with active := some { a with retriesSinceLastError := 0 } },
               phase := .atLoop }
      else if a.fsr.state.flag &&& FSReplicationState.fsRetryWait.flag ≠ 0 then
        some { rep := { m.rep with
                 active := some { a with
                   retriesSinceLastError := a.retriesSinceLastError + 1 } },
               phase := .atLoop }
      else if a.fsr.state.flag &&&
          (FSReplicationState.fsPermanentError.flag ||| FSReplicationState.fsCompleted.flag)
          ≠ 0 then
        some { rep := { m.rep with completed := m.rep.completed ++ [a], active := none },
               phase := .atLoop }
      else none
  | _, _ => none

/-- The zero-value `Replication` a run starts from; `Drive` begins with
`rsfPlanning`, modelled by the `planning` start state. -/
def Replication.start : Replication :=
  { state := .planning, pending := [], completed := [], active := none,
    planningError := none, contextError := none }

/-- The machine's start state. -/
def MState.start : MState := { rep := Replication.start, phase := .atLoop }

/-- One step under some event. -/
def MStep (m m' : MState) : Prop := ∃ ev, mstep m ev = some m'

/-- Reachability from the start of a run. -/
def Reach (m : MState) : Prop := Relation.ReflTransGen MStep MState.start m

/-- Structural well-formedness of the `active` pointer of a per-filesystem
machine, as established by construction and preserved by the reachable
transitions: a machine in `Active` has a (unique, it is a single pointer)
non-nil active step, and machines in `Queued` or `Completed` have a nil
one.  (`RetryWait` and `PermanentError` are deliberately unconstrained: the
failed step stays active there.) -/
def fsActiveInv (f : FSReplication) : Prop :=
  (f.state = .fsActive → f.active.isSome) ∧
  (f.state = .fsQueued → f.active = none) ∧
  (f.state = .fsCompleted → f.active = none)

/-- What holds of every item in the overall `pending` queue: zero retry
counter, `FSQueued`, no active step. -/
def wfItem (q : ReplicationQueueItem) : Prop :=
  q.retriesSinceLastError = 0 ∧ q.fsr.state = .fsQueued ∧ q.fsr.active = none

/-- Queue items built by the planner are well formed in the
`fsActiveInv` sense and carry a zero retry counter. -/
theorem mkQueueItem_inv (fs : Filesystem) (p : List FilesystemVersion) :
    fsActiveInv (mkQueueItem fs p).fsr ∧ (mkQueueItem fs p).retriesSinceLastError = 0 := by
  refine ⟨⟨?_, ?_, ?_⟩, rfl⟩ <;> · simp only [mkQueueItem]; split <;> simp

/-- Classification of a `planPath` result: an item routed to `pending` is
well formed, an item routed to `completed` satisfies the active
invariant. -/
theorem planPath_ok (env : PlanEnv) (fs : Filesystem)
    (rfsvs sfsvs : List FilesystemVersion) :
    (∀ q, planPath env fs rfsvs sfsvs = .toPending q → wfItem q) ∧
    (∀ q, planPath env fs rfsvs sfsvs = .toCompleted q → fsActiveInv q.fsr) := by
  constructor
  · intro q hq
    simp only [planPath] at hq
    split at hq
    · exact nomatch hq
    · split at hq
      · exact nomatch hq
      · rename_i hstate
        cases hq
        exact ⟨(mkQueueItem_inv fs _).2, hstate, by simp [mkQueueItem]⟩
      · exact nomatch hq
  · intro q hq
    simp only [planPath] at hq
    split at hq
    · cases hq
      simp [newReplicationQueueItemPermanentError, fsActiveInv]
    · split at hq
      · cases hq
        exact (mkQueueItem_inv fs _).1
      · exact nomatch hq
      · cases hq
        exact (mkQueueItem_inv fs _).1

/-- Classification of one planning-loop body result: items routed to
`pending` are well formed, items routed to `completed` satisfy the active
invariant. -/
theorem planFilesystem_ok (env : PlanEnv) (rfss : List Filesystem) (fs : Filesystem)
    (rq : PlanFsResult) (h : planFilesystem env rfss fs = .ok rq) :
    (∀ q, rq = .toPending q → wfItem q) ∧ (∀ q, rq = .toCompleted q → fsActiveInv q.fsr) := by
  unfold planFilesystem at h
  split at h
  · exact absurd h (by simp)
  · split at h
    · simp only [Except.ok.injEq] at h; subst h
      refine ⟨fun q hq => (nomatch hq), fun q hq => ?_⟩
      cases hq
      simp [newReplicationQueueItemPermanentError, fsActiveInv]
    · split at h
      · exact absurd h (by simp)
      · simp only [Except.ok.injEq] at h; subst h
        exact ⟨fun q hq => (nomatch hq), fun q hq => (nomatch hq)⟩
      · rename_i rfsvs heq
        simp only [Except.ok.injEq] at h; subst h
        exact planPath_ok env fs rfsvs _

/-- The planning loop preserves the bucket invariants. -/
theorem planLoop_inv (env : PlanEnv) (rfss : List Filesystem) :
    ∀ (l : List Filesystem) (pnd cmp pnd' cmp' : List ReplicationQueueItem),
    (∀ q ∈ pnd, wfItem q) → (∀ q ∈ cmp, fsActiveInv q.fsr) →
    planLoop env rfss l pnd cmp = .ok (pnd', cmp') →
    (∀ q ∈ pnd', wfItem q) ∧ (∀ q ∈ cmp', fsActiveInv q.fsr) := by
  intro l
  induction l with
  | nil =>
    intro pnd cmp pnd' cmp' hp hc h
    simp only [planLoop, Except.ok.injEq, Prod.mk.injEq] at h
    obtain ⟨h1, h2⟩ := h
    subst h1; subst h2
    exact ⟨hp, hc⟩
  | cons fs rest ih =>
    intro pnd cmp pnd' cmp' hp hc h
    rw [planLoop] at h
    split at h
    · exact absurd h (by simp)
    · rename_i heq
      exact ih pnd cmp pnd' cmp' hp hc h
    · rename_i q heq
      refine ih pnd (cmp ++ [q]) pnd' cmp' hp ?_ h
      intro x hx
      rcases List.mem_append.mp hx with hx | hx
      · exact hc x hx
      · rcases List.mem_singleton.mp hx with rfl
        exact (planFilesystem_ok env rfss fs _ heq).2 x rfl
    · rename_i q heq
      refine ih (pnd ++ [q]) cmp pnd' cmp' ?_ hc h
      intro x hx
      rcases List.mem_append.mp hx with hx | hx
      · exact hp x hx
      · rcases List.mem_singleton.mp hx with rfl
        exact (planFilesystem_ok env rfss fs _ heq).1 x rfl

/-- What `rsfPlanning` does to the machine: either it installs planner-built
buckets and enters `Working` with the planning error cleared, or it records
an error and enters `PlanningError` leaving the buckets alone; `active` and
`contextError` are never touched. -/
theorem rsfPlanning_cases (env : PlanEnv) (r : Replication) :
    (∃ pnd cmp, rsfPlanning env r =
        { r with completed := cmp, pending := pnd, planningError := none, state := .working } ∧
        (∀ q ∈ pnd, wfItem q) ∧ (∀ q ∈ cmp, fsActiveInv q.fsr)) ∨
    (∃ e, rsfPlanning env r = { r with planningError := some e, state := .planningError }) := by
  rcases hsf : env.senderFilesystems with e | sfss
  · refine Or.inr ⟨e, ?_⟩
    simp only [rsfPlanning, hsf]
  · rcases hrf : env.receiverFilesystems with e | rfss
    · refine Or.inr ⟨e, ?_⟩
      simp only [rsfPlanning, hsf, hrf]
    · rcases hpl : planLoop env rfss sfss [] [] with e | ⟨pnd, cmp⟩
      · refine Or.inr ⟨e, ?_⟩
        simp only [rsfPlanning, hsf, hrf, hpl]
      · refine Or.inl ⟨pnd, cmp, ?_,
          planLoop_inv env rfss sfss [] [] pnd cmp (by simp) (by simp) hpl⟩
        simp only [rsfPlanning, hsf, hrf, hpl]

/-- A well-formed pending item satisfies the active invariant. -/
theorem wfItem_activeInv (q : ReplicationQueueItem) (h : wfItem q) : fsActiveInv q.fsr :=
  ⟨fun ha => (nomatch h.2.1.symm.trans ha), fun _ => h.2.2,
   fun hc => (nomatch h.2.1.symm.trans hc)⟩

/-- `doDrive` preserves the active invariant across the transitions the
driver actually takes (out of `Queued` and `Active`). -/
theorem doDrive_activeInv (f f' : FSReplication) (o : StepOutcome)
    (hg : f.state = .fsQueued ∨ f.state = .fsActive)
    (hinv : fsActiveInv f) (h : f.doDrive o = some f') : fsActiveInv f' := by
  rcases hg with hs | hs
  · have ha : f.active = none := hinv.2.1 hs
    simp only [FSReplication.doDrive, hs, ha] at h
    rcases hp : f.pending with _ | ⟨st₁, rest⟩ <;> rw [hp] at h <;>
      simp only [Option.some.injEq] at h <;> subst h
    · exact ⟨fun hc => (nomatch hc), fun hc => (nomatch hc), fun _ => rfl⟩
    · exact ⟨fun _ => by simp, fun hc => (nomatch hc), fun hc => (nomatch hc)⟩
  · rcases ha : f.active with _ | st
    · rw [FSReplication.doDrive, hs, ha] at h
      exact absurd h (by simp)
    · simp only [FSReplication.doDrive, hs, ha] at h
      rcases hres : (st.doStep f.fs o).state with _ | _ | _ | _ <;> simp only [hres] at h
      · exact absurd h (by simp)
      · simp only [Option.some.injEq] at h; subst h
        exact ⟨fun hc => (nomatch hc), fun hc => (nomatch hc), fun hc => (nomatch hc)⟩
      · simp only [Option.some.injEq] at h; subst h
        exact ⟨fun hc => (nomatch hc), fun hc => (nomatch hc), fun hc => (nomatch hc)⟩
      · simp only [Option.some.injEq] at h; subst h
        refine ⟨fun hc => ?_, fun _ => rfl, fun _ => rfl⟩
        rcases hpe : f.pending.isEmpty <;> rw [hpe] at hc <;> exact (nomatch hc)

/-- What must hold of the overall active item at each control position:
at the loop boundary an item left active is waiting to retry; after
selection it is either such a waiter or a freshly promoted `Queued` item
with a zero counter; throughout driving its counter is zero (this is the
heart of the retry-reset invariant); after the drive loop its filesystem is
in one of the drive-terminal states and the counter is still zero. -/
def phaseInv : DriverPhase → ReplicationQueueItem → Prop
  | .atLoop, a => a.fsr.state = .fsRetryWait
  | .selected, a => a.fsr.state = .fsRetryWait ∨
      (a.fsr.state = .fsQueued ∧ a.retriesSinceLastError = 0)
  | .driving, a => a.retriesSinceLastError = 0
  | .afterDrive, a => a.retriesSinceLastError = 0 ∧
      (a.fsr.state = .fsRetryWait ∨ a.fsr.state = .fsPermanentError ∨
        a.fsr.state = .fsCompleted)

/-- The driver's inductive invariant: every item in the overall `pending`
queue is well formed; every completed item satisfies the active invariant;
the active item (when present) satisfies the active invariant and the
control-position invariant; and the phases inside `rsfWorking`'s work on an
item always have an active item. -/
def Inv (m : MState) : Prop :=
  (∀ q ∈ m.rep.pending, wfItem q) ∧
  (∀ q ∈ m.rep.completed, fsActiveInv q.fsr) ∧
  (∀ a, m.rep.active = some a → fsActiveInv a.fsr ∧ phaseInv m.phase a) ∧
  (m.rep.active = none → m.phase = .atLoop)

/-- The invariant holds at the start of a run. -/
theorem inv_start : Inv MState.start := by
  refine ⟨?_, ?_, ?_, ?_⟩ <;> simp [MState.start, Replication.start]

/-- The invariant is preserved by every micro-step. -/
theorem inv_mstep (m m' : MState) (ev : MEvent) (hInv : Inv m)
    (h : mstep m ev = some m') : Inv m' := by
  obtain ⟨rep, ph⟩ := m
  obtain ⟨hpend, hcomp, hact, hnone⟩ := hInv
  simp only at hpend hcomp hact hnone
  cases ph <;> cases ev <;> simp only [mstep] at h
  case atLoop.planAnswers env =>
    rcases hrsf : rep.state.rsf with _ | hd <;> simp only [hrsf] at h
    · exact absurd h (by simp)
    · cases hd <;> simp only [Option.some.injEq] at h
      case hPlanning =>
        subst h
        rcases rsfPlanning_cases env rep with ⟨pnd, cmp, heq, hwf, hinv⟩ | ⟨e, heq⟩
        · rw [heq]
          exact ⟨hwf, hinv, fun a ha => hact a ha, fun ha => hnone ha⟩
        · rw [heq]
          exact ⟨hpend, hcomp, fun a ha => hact a ha, fun ha => hnone ha⟩
      all_goals exact absurd h (by simp)
  case atLoop.waitEv we =>
    rcases hrsf : rep.state.rsf with _ | hd <;> simp only [hrsf] at h
    · exact absurd h (by simp)
    · cases hd <;> simp only [Option.map_eq_some'] at h
      case hPlanningError =>
        obtain ⟨r', hr', hm'⟩ := h
        subst hm'
        cases we <;> simp only [rsfPlanningErrorSelect, Option.some.injEq] at hr'
        · subst hr'; exact ⟨hpend, hcomp, hact, hnone⟩
        · subst hr'; exact ⟨hpend, hcomp, hact, hnone⟩
        · exact absurd hr' (by simp)
      case hWorkingWait =>
        obtain ⟨r', hr', hm'⟩ := h
        subst hm'
        cases we <;> simp only [rsfWorkingWaitSelect, Option.some.injEq] at hr'
        · subst hr'; exact ⟨hpend, hcomp, hact, hnone⟩
        · subst hr'; exact ⟨hpend, hcomp, hact, hnone⟩
        · exact absurd hr' (by simp)
      all_goals exact absurd h (by simp)
  case atLoop.stepOutcome o =>
    exact absurd h (by simp)
  case atLoop.tick =>
    rcases hrsf : rep.state.rsf with _ | hd <;> simp only [hrsf] at h
    · exact absurd h (by simp)
    · cases hd
      case hWorking =>
        rcases ha : rep.active with _ | a <;> simp only [ha] at h
        · by_cases hpe : rep.pending.isEmpty = true
          case pos =>
            rw [if_pos hpe] at h
            simp only [Option.some.injEq] at h; subst h
            exact ⟨hpend, hcomp, fun b hb => (nomatch hb), fun _ => rfl⟩
          case neg =>
            rw [if_neg hpe] at h
            rcases hsort : List.insertionSort itemLe rep.pending with _ | ⟨hd₁, t⟩ <;>
              rw [hsort] at h
            · exact absurd h (by simp)
            · simp only [Option.some.injEq] at h; subst h
              have hperm : List.Perm (hd₁ :: t) rep.pending :=
                hsort ▸ List.perm_insertionSort _ _
              have hmem : ∀ q ∈ hd₁ :: t, wfItem q := fun q hq =>
                hpend q (hperm.mem_iff.mp hq)
              refine ⟨fun q hq => hmem q (List.mem_cons_of_mem hd₁ hq), hcomp,
                fun b hb => ?_, fun hb => by simp at hb⟩
              simp only [Option.some.injEq] at hb; subst hb
              have hwf := hmem hd₁ (List.mem_cons_self hd₁ t)
              exact ⟨wfItem_activeInv hd₁ hwf, Or.inr ⟨hwf.2.1, hwf.1⟩⟩
        · simp only [Option.some.injEq] at h; subst h
          refine ⟨hpend, hcomp, fun b hb => ?_, fun hb => (nomatch ha.symm.trans hb)⟩
          obtain rfl : a = b := Option.some.inj (ha.symm.trans hb)
          obtain ⟨hai, hpi⟩ := hact a ha
          exact ⟨hai, Or.inl hpi⟩
      all_goals exact absurd h (by simp)
  case selected.planAnswers env => exact absurd h (by simp)
  case selected.waitEv we => exact absurd h (by simp)
  case selected.stepOutcome o => exact absurd h (by simp)
  case selected.tick =>
    rcases ha : rep.active with _ | a <;> simp only [ha] at h
    · exact absurd h (by simp)
    · obtain ⟨hai, hpi⟩ := hact a ha
      by_cases hrw : a.fsr.state = .fsRetryWait
      · rw [if_pos hrw] at h
        simp only [Option.some.injEq] at h; subst h
        refine ⟨hpend, hcomp, fun b hb => ?_, fun hb => (nomatch hb)⟩
        obtain rfl : a = b := Option.some.inj hb
        exact ⟨hai, hrw⟩
      · rw [if_neg hrw] at h
        by_cases hq : a.fsr.state = .fsQueued
        · rw [if_pos hq] at h
          simp only [Option.some.injEq] at h; subst h
          refine ⟨hpend, hcomp, fun b hb => ?_, fun hb => (nomatch ha.symm.trans hb)⟩
          obtain rfl : a = b := Option.some.inj (ha.symm.trans hb)
          rcases hpi with hpi | hpi
          · exact absurd hpi hrw
          · exact ⟨hai, hpi.2⟩
        · rw [if_neg hq] at h
          exact absurd h (by simp)
  case driving.planAnswers env => exact absurd h (by simp)
  case driving.waitEv we => exact absurd h (by simp)
  case driving.stepOutcome o =>
    rcases ha : rep.active with _ | a <;> simp only [ha] at h
    · exact absurd h (by simp)
    · obtain ⟨hai, hpi⟩ := hact a ha
      by_cases hactv : a.fsr.state = .fsActive
      · rw [if_pos hactv] at h
        simp only [Option.map_eq_some'] at h
        obtain ⟨f', hf', hm'⟩ := h
        subst hm'
        refine ⟨hpend, hcomp, fun b hb => ?_, fun hb => by simp at hb⟩
        simp only [Option.some.injEq] at hb; subst hb
        exact ⟨doDrive_activeInv a.fsr f' o (Or.inr hactv) hai hf', hpi⟩
      · rw [if_neg hactv] at h
        exact absurd h (by simp)
  case driving.tick =>
    rcases ha : rep.active with _ | a <;> simp only [ha] at h
    · exact absurd h (by simp)
    · obtain ⟨hai, hpi⟩ := hact a ha
      by_cases hg : a.fsr.state.flag &&& driveMask = 0
      · rw [if_pos hg] at h
        by_cases hactv : a.fsr.state = .fsActive
        · rw [if_pos hactv] at h
          exact absurd h (by simp)
        · rw [if_neg hactv] at h
          simp only [Option.map_eq_some'] at h
          obtain ⟨f', hf', hm'⟩ := h
          subst hm'
          have hq : a.fsr.state = .fsQueued := by
            rcases (driveGuard_iff a.fsr.state).mp hg with hq | hq
            · exact hq
            · exact absurd hq hactv
          refine ⟨hpend, hcomp, fun b hb => ?_, fun hb => by simp at hb⟩
          simp only [Option.some.injEq] at hb; subst hb
          exact ⟨doDrive_activeInv a.fsr f' unusedOutcome (Or.inl hq) hai hf', hpi⟩
      · rw [if_neg hg] at h
        simp only [Option.some.injEq] at h; subst h
        refine ⟨hpend, hcomp, fun b hb => ?_, fun hb => (nomatch ha.symm.trans hb)⟩
        obtain rfl : a = b := Option.some.inj (ha.symm.trans hb)
        exact ⟨hai, hpi, driveGuard_false a.fsr.state hg⟩
  case afterDrive.planAnswers env => exact absurd h (by simp)
  case afterDrive.waitEv we => exact absurd h (by simp)
  case afterDrive.stepOutcome o => exact absurd h (by simp)
  case afterDrive.tick =>
    rcases ha : rep.active with _ | a <;> simp only [ha] at h
    · exact absurd h (by simp)
    · obtain ⟨hai, hcnt, hterm⟩ := hact a ha
      rcases hterm with hs | hs | hs
      · rw [hs] at h
        rw [if_neg (by decide), if_pos (by decide)] at h
        simp only [Option.some.injEq] at h; subst h
        refine ⟨hpend, hcomp, fun b hb => ?_, fun hb => (nomatch hb)⟩
        obtain rfl : _ = b := Option.some.inj hb
        exact ⟨hai, hs⟩
      · rw [hs] at h
        rw [if_neg (by decide), if_neg (by decide), if_pos (by decide)] at h
        simp only [Option.some.injEq] at h; subst h
        refine ⟨hpend, fun q hq => ?_, fun b hb => (nomatch hb), fun _ => rfl⟩
        rcases List.mem_append.mp hq with hq | hq
        · exact hcomp q hq
        · rcases List.mem_singleton.mp hq with rfl
          exact hai
      · rw [hs] at h
        rw [if_neg (by decide), if_neg (by decide), if_pos (by decide)] at h
        simp only [Option.some.injEq] at h; subst h
        refine ⟨hpend, fun q hq => ?_, fun b hb => (nomatch hb), fun _ => rfl⟩
        rcases List.mem_append.mp hq with hq | hq
        · exact hcomp q hq
        · rcases List.mem_singleton.mp hq with rfl
          exact hai

/-- Every reachable machine state satisfies the invariant. -/
theorem inv_reach (m : MState) (h : Reach m) : Inv m := by
  induction h with
  | refl => exact inv_start
  | tail _ hstep ih =>
    obtain ⟨ev, hev⟩ := hstep
    exact inv_mstep _ _ ev ih hev

/-- The scheduler's primary key as the spec words it: state priority with
`Queued` before `RetryWait`.  (This definition follows the spec's words, for
comparison with the source's comparator `itemLess`.) -/
def specStatePrio (q : ReplicationQueueItem) : Nat :=
  match q.fsr.state with
  | .fsQueued => 0
  | _ => 1

/-- The scheduler ordering as §4.4 of the spec words it: ascending by
(1) state priority `Queued < RetryWait`; (2) among two `Queued` items,
earlier `nextStepDate()` first; (3) among two `RetryWait` items, smaller
`retriesSinceLastError` first.  (Defined from the spec's words, to be
compared with the source's `itemLess`.) -/
def specLe (a b : ReplicationQueueItem) : Prop :=
  specStatePrio a < specStatePrio b ∨
  (a.fsr.state = .fsQueued ∧ b.fsr.state = .fsQueued ∧
    a.fsr.nextStepDate ≤ b.fsr.nextStepDate) ∨
  (a.fsr.state = .fsRetryWait ∧ b.fsr.state = .fsRetryWait ∧
    a.retriesSinceLastError ≤ b.retriesSinceLastError)

/-- On items in the states the working queue can contain, the source's
comparator refines the spec's ordering. -/
theorem itemLe_specLe (a b : ReplicationQueueItem)
    (ha : a.fsr.state = .fsQueued ∨ a.fsr.state = .fsRetryWait)
    (hb : b.fsr.state = .fsQueued ∨ b.fsr.state = .fsRetryWait)
    (h : itemLe a b) : specLe a b := by
  rw [itemLe_iff] at h
  rcases ha with ha | ha <;> rcases hb with hb | hb
  · refine Or.inr (Or.inl ⟨ha, hb, ?_⟩)
    simp only [statePrio, secKey, ha, hb] at h
    omega
  · exact Or.inl (by simp [specStatePrio, ha, hb])
  · simp only [statePrio, secKey, ha, hb] at h
    omega
  · refine Or.inr (Or.inr ⟨ha, hb, ?_⟩)
    simp only [statePrio, secKey, ha, hb] at h
    omega

/-- C4: whenever the `Working` state selects a new active item (no item is
active), if `pending` is empty the machine transitions to `Completed`;
otherwise `pending` is sorted ascending by (1) state priority with `Queued`
before `RetryWait`, (2) among `Queued` items earlier `nextStepDate()`
first, (3) among `RetryWait` items smaller `retriesSinceLastError` first —
the sorted list is a permutation of `pending` pairwise ordered by the
spec's keys — and its head is removed and made active. -/
theorem working_selection (m : MState)
    (hph : m.phase = .atLoop) (hst : m.rep.state = .working) (hac : m.rep.active = none)
    (hstates : ∀ q ∈ m.rep.pending, q.fsr.state = .fsQueued ∨ q.fsr.state = .fsRetryWait) :
    (m.rep.pending = [] →
      mstep m .tick = some { rep := { m.rep with state := .completed }, phase := .atLoop }) ∧
    (m.rep.pending ≠ [] →
      ∃ hd tl, List.insertionSort itemLe m.rep.pending = hd :: tl ∧
        mstep m .tick =
          some { rep := { m.rep with active := some hd, pending := tl }, phase := .selected } ∧
        List.Perm (hd :: tl) m.rep.pending ∧
        List.Pairwise specLe (hd :: tl)) := by
  obtain ⟨rep, ph⟩ := m
  simp only at hph hst hac hstates ⊢
  subst hph
  constructor
  · intro hp
    simp only [mstep, hst, ReplicationState.rsf, hac, hp, List.isEmpty_nil, if_true]
  · intro hp
    have hperm₀ : List.Perm (List.insertionSort itemLe rep.pending) rep.pending :=
      List.perm_insertionSort _ _
    rcases hsort : List.insertionSort itemLe rep.pending with _ | ⟨hd, tl⟩
    · rw [hsort] at hperm₀
      exact absurd (hperm₀.symm.eq_nil ▸ rfl) hp
    · rw [hsort] at hperm₀
      have hpe : rep.pending.isEmpty = false := by
        rcases hq : rep.pending with _ | _
        · exact absurd hq hp
        · rfl
      refine ⟨hd, tl, rfl, ?_, hperm₀, ?_⟩
      · simp only [mstep, hst, ReplicationState.rsf, hac, hpe, Bool.false_eq_true,
          if_false, hsort]
      · have hsorted : List.Sorted itemLe (List.insertionSort itemLe rep.pending) :=
          List.sorted_insertionSort itemLe rep.pending
        rw [hsort] at hsorted
        refine List.Pairwise.imp_of_mem ?_ hsorted
        intro a b hma hmb hab
        exact itemLe_specLe a b (hstates a (hperm₀.subset hma))
          (hstates b (hperm₀.subset hmb)) hab

/-- Concrete run fixture: one sender filesystem with two versions. -/
def fsA : Filesystem := { path := "tank/a", resumeToken := "" }

/-- Concrete run fixture: the older version. -/
def v1 : FilesystemVersion := { relName := "@v1", creation := 1 }

/-- Concrete run fixture: the newer version. -/
def v2 : FilesystemVersion := { relName := "@v2", creation := 2 }

/-- Concrete run fixture: the planned incremental step `v1 → v2`. -/
def st12 : FSReplicationStep :=
  { state := .stepPending, fromVer := some v1, toVer := v2, err := none }

/-- Concrete run fixture: a planning oracle whose sender has `fsA` with
versions `[v1, v2]` and whose receiver has nothing. -/
def env0 : PlanEnv :=
  { senderFilesystems := .ok [fsA], receiverFilesystems := .ok [],
    senderVersions := fun _ => .ok [v1, v2],
    receiverVersions := fun _ => .ok [],
    incrementalPath := fun _ _ => (some [v1, v2], none),
    resolveConflict := fun _ => (none, "") }

/-- Concrete run fixture: a step execution whose `Send` fails with EOF. -/
def oRetry : StepOutcome := { send := .err .ioEOF, receive := none }

/-- Run state after planning: `Working` with one queue item. -/
def mRun1 : MState :=
  { rep := { state := .working,
             pending := [{ retriesSinceLastError := 0,
                           fsr := { state := .fsQueued, fs := fsA, permanentError := none,
                                    completed := [], pending := [st12], active := none } }],
             completed := [], active := none, planningError := none, contextError := none },
    phase := .atLoop }

/-- Run state after the selection closure of `rsfWorking`. -/
def mRun2 : MState :=
  { rep := { state := .working, pending := [],
             completed := [],
             active := some { retriesSinceLastError := 0,
                              fsr := { state := .fsQueued, fs := fsA, permanentError := none,
                                       completed := [], pending := [st12], active := none } },
             planningError := none, contextError := none },
    phase := .selected }

/-- Run state on entering the per-filesystem drive loop. -/
def mRun3 : MState := { rep := mRun2.rep, phase := .driving }

/-- The per-filesystem machine with the step promoted to active. -/
def fsr4 : FSReplication :=
  { state := .fsActive, fs := fsA, permanentError := none,
    completed := [], pending := [], active := some st12 }

/-- Run state after the `Queued → Active` `doDrive` transition. -/
def mRun4 : MState :=
  { rep := { state := .working, pending := [], completed := [],
             active := some { retriesSinceLastError := 0, fsr := fsr4 },
             planningError := none, contextError := none },
    phase := .driving }

/-- The step after its EOF-failed execution. -/
def st12r : FSReplicationStep :=
  { state := .stepRetry, fromVer := some v1, toVer := v2, err := some .ioEOF }

/-- The per-filesystem machine in `RetryWait` retaining the failed step. -/
def fsr5 : FSReplication :=
  { state := .fsRetryWait, fs := fsA, permanentError := none,
    completed := [], pending := [], active := some st12r }

/-- The queue item in `RetryWait`, counter still zero. -/
def qRun5 : ReplicationQueueItem := { retriesSinceLastError := 0, fsr := fsr5 }

/-- Run state immediately after the step execution returned Retry. -/
def mRun5 : MState :=
  { rep := { state := .working, pending := [], completed := [],
             active := some qRun5, planningError := none, contextError := none },
    phase := .driving }

/-- Run state after the drive loop exits on `RetryWait`. -/
def mRun6 : MState := { rep := mRun5.rep, phase := .afterDrive }

/-- Run state after `rsfWorking`'s final closure incremented the counter. -/
def mRun7 : MState :=
  { rep := { state := .working, pending := [], completed := [],
             active := some { retriesSinceLastError := 1, fsr := fsr5 },
             planningError := none, contextError := none },
    phase := .atLoop }

/-- The concrete run reaches `mRun1`. -/
theorem reachRun1 : Reach mRun1 :=
  Relation.ReflTransGen.single ⟨.planAnswers env0, by decide⟩

/-- The concrete run reaches `mRun2`. -/
theorem reachRun2 : Reach mRun2 :=
  Relation.ReflTransGen.tail reachRun1 ⟨.tick, by decide⟩

/-- The concrete run reaches `mRun3`. -/
theorem reachRun3 : Reach mRun3 :=
  Relation.ReflTransGen.tail reachRun2 ⟨.tick, by decide⟩

/-- The concrete run reaches `mRun4`. -/
theorem reachRun4 : Reach mRun4 :=
  Relation.ReflTransGen.tail reachRun3 ⟨.tick, by decide⟩

/-- The concrete run reaches `mRun5`. -/
theorem reachRun5 : Reach mRun5 :=
  Relation.ReflTransGen.tail reachRun4 ⟨.stepOutcome oRetry, by decide⟩

/-- The concrete run reaches `mRun6`. -/
theorem reachRun6 : Reach mRun6 :=
  Relation.ReflTransGen.tail reachRun5 ⟨.tick, by decide⟩

/-- The concrete run reaches `mRun7`. -/
theorem reachRun7 : Reach mRun7 :=
  Relation.ReflTransGen.tail reachRun6 ⟨.tick, by decide⟩

/-- C1: for every queue item, `retriesSinceLastError` is zero immediately
after any per-filesystem transition whose cause was a step execution —
in particular after every Completed step (the counter of the driven item is
zero throughout the drive, so it reads zero at the instant after each
completed step) — and the counter is incremented exactly when the
filesystem re-enters `RetryWait` (the final updater of `rsfWorking`). -/
theorem retries_reset_on_completed_step :
    (∀ m o m' a, Reach m → mstep m (.stepOutcome o) = some m' →
      m'.rep.active = some a → a.retriesSinceLastError = 0) ∧
    (∀ m a, m.phase = .afterDrive → m.rep.active = some a →
      a.fsr.state = .fsRetryWait →
      mstep m .tick = some { rep := { m.rep with active := some { a with
          retriesSinceLastError := a.retriesSinceLastError + 1 } }, phase := .atLoop }) := by
  constructor
  · intro m o m' a hreach hstep ha
    obtain ⟨hpend, hcomp, hact, hnone⟩ := inv_reach m hreach
    obtain ⟨rep, ph⟩ := m
    simp only at hact
    cases ph <;> simp only [mstep] at hstep
    case driving =>
      rcases ha₀ : rep.active with _ | a₀ <;> simp only [ha₀] at hstep
      · exact absurd hstep (by simp)
      · by_cases hactv : a₀.fsr.state = .fsActive
        · rw [if_pos hactv] at hstep
          simp only [Option.map_eq_some'] at hstep
          obtain ⟨f', hf', hm'⟩ := hstep
          subst hm'
          obtain ⟨hai, hcnt⟩ := hact a₀ ha₀
          simp only at ha
          obtain rfl : _ = a := Option.some.inj ha
          exact hcnt
        · rw [if_neg hactv] at hstep
          exact absurd hstep (by simp)
    all_goals exact absurd hstep (by simp)
  · intro m a hph ha hrw
    obtain ⟨rep, ph⟩ := m
    simp only at hph ha ⊢
    subst hph
    simp only [mstep, ha, hrw]
    rw [if_neg (by decide), if_pos (by decide)]

/-- C1 witness: in the concrete run, the counter is zero immediately after
the EOF-failed step execution, and the subsequent `RetryWait` update
increments it to one. -/
theorem retries_reset_on_completed_step_witness :
    qRun5.retriesSinceLastError = 0 ∧
    mstep mRun6 .tick = some { rep := { mRun6.rep with active := some { qRun5 with
        retriesSinceLastError := qRun5.retriesSinceLastError + 1 } }, phase := .atLoop } := by
  constructor
  · exact retries_reset_on_completed_step.1 mRun4 oRetry mRun5 qRun5 reachRun4
      (by decide) (by decide)
  · exact retries_reset_on_completed_step.2 mRun6 qRun5 rfl (by decide) (by decide)

/-- C2 counterexample: a reachable state (one planned filesystem whose
single step's `Send` failed with EOF) in which the per-filesystem machine
is in `RetryWait` and its active step is *not* nil — the failed step is
retained — refuting "in every other state the active step is null". -/
theorem active_step_null_counterexample :
    Reach mRun5 ∧ mRun5.rep.active = some qRun5 ∧
    qRun5.fsr.state = .fsRetryWait ∧ qRun5.fsr.active ≠ none :=
  ⟨reachRun5, by decide, by decide, by decide⟩

/-- C2 amended: at every observable instant, every queue item anywhere in a
reachable machine (pending, completed, or active) has a non-nil active step
when in `Active`, and a nil active step when in `Queued` or `Completed`;
in `RetryWait` and `PermanentError` reached through a failed step the
failed step is retained as the active step (planner-built
`PermanentError`/`Completed` items have a nil one). -/
theorem active_step_invariant (m : MState) (hm : Reach m) (q : ReplicationQueueItem)
    (hq : q ∈ m.rep.pending ∨ q ∈ m.rep.completed ∨ m.rep.active = some q) :
    (q.fsr.state = .fsActive → q.fsr.active.isSome) ∧
    (q.fsr.state = .fsQueued → q.fsr.active = none) ∧
    (q.fsr.state = .fsCompleted → q.fsr.active = none) := by
  obtain ⟨hpend, hcomp, hact, _⟩ := inv_reach m hm
  rcases hq with hq | hq | hq
  · exact wfItem_activeInv q (hpend q hq)
  · exact hcomp q hq
  · exact (hact q hq).1

/-- C2 amended witness: in the concrete run, the filesystem just promoted
to `Active` has a non-nil active step. -/
theorem active_step_invariant_witness :
    ({ retriesSinceLastError := 0, fsr := fsr4 } : ReplicationQueueItem).fsr.active.isSome := by
  exact (active_step_invariant mRun4 reachRun4 { retriesSinceLastError := 0, fsr := fsr4 }
    (Or.inr (Or.inr (by decide)))).1 (by decide)

/-- The overall machine blocked in `WorkingWait` used by the C3
counterexample. -/
def repWW : Replication :=
  { state := .workingWait, pending := [], completed := [], active := none,
    planningError := none, contextError := none }

/-- C3 counterexample: delivering the `retryNow` signal to a machine
blocked in `WorkingWait` produces no transition at all — the `select` in
`rsfWorkingWait` has no case for the trigger channel, so the wait is *not*
cut short and the machine does not return to `Working`. -/
theorem retry_now_counterexample :
    mstep { rep := repWW, phase := .atLoop } (.waitEv .retryNowSignal) = none := by
  decide

/-- C3 amended: the `retryNow` channel handed to `Drive` is never read:
its delivery unblocks neither `WorkingWait` nor `PlanningError`; both waits
end only through the timer (`WorkingWait → Working`,
`PlanningError → Planning`) or cancellation (→ `ContextDone`). -/
theorem retry_now_ignored (m : MState) (hph : m.phase = .atLoop) :
    ((m.rep.state = .workingWait ∨ m.rep.state = .planningError) →
      mstep m (.waitEv .retryNowSignal) = none) ∧
    (m.rep.state = .workingWait →
      mstep m (.waitEv .timerFired) =
        some { rep := { m.rep with state := .working }, phase := .atLoop }) ∧
    (m.rep.state = .planningError →
      mstep m (.waitEv .timerFired) =
        some { rep := { m.rep with state := .planning }, phase := .atLoop }) ∧
    (∀ e, m.rep.state = .workingWait →
      mstep m (.waitEv (.ctxDone e)) =
        some { rep := { m.rep with state := .contextDone, contextError := some e },
               phase := .atLoop }) := by
  obtain ⟨rep, ph⟩ := m
  simp only at hph ⊢
  subst hph
  refine ⟨fun hs => ?_, fun hs => ?_, fun hs => ?_, fun e hs => ?_⟩
  · rcases hs with hs | hs <;>
      simp [mstep, hs, ReplicationState.rsf, rsfWorkingWaitSelect, rsfPlanningErrorSelect]
  · simp [mstep, hs, ReplicationState.rsf, rsfWorkingWaitSelect]
  · simp [mstep, hs, ReplicationState.rsf, rsfPlanningErrorSelect]
  · simp [mstep, hs, ReplicationState.rsf, rsfWorkingWaitSelect]

/-- C3 amended witness: the theorem applied to the concrete blocked
machine. -/
theorem retry_now_ignored_witness :
    mstep { rep := repWW, phase := .atLoop } (.waitEv .retryNowSignal) = none ∧
    mstep { rep := repWW, phase := .atLoop } (.waitEv .timerFired) =
      some { rep := { repWW with state := .working }, phase := .atLoop } := by
  constructor
  · exact (retry_now_ignored { rep := repWW, phase := .atLoop } rfl).1 (Or.inl rfl)
  · exact (retry_now_ignored { rep := repWW, phase := .atLoop } rfl).2.1 rfl

/-- C8: if cancellation fires while the overall machine is blocked in
`PlanningError` or `WorkingWait`, the machine transitions to `ContextDone`
recording the context's error; `ContextDone` has a nil state function, so
the `Drive` loop exits and the machine admits no further step of any kind —
in particular no further endpoint call — within the run.  (The `ctxDone`
event models the `select` taking the `ctx.Done()` branch, i.e. cancellation
observed before the 10 s timer fired.) -/
theorem cancellation_to_context_done (m : MState) (e : Err)
    (hph : m.phase = .atLoop)
    (hst : m.rep.state = .planningError ∨ m.rep.state = .workingWait) :
    ∃ m', mstep m (.waitEv (.ctxDone e)) = some m' ∧
      m'.rep.state = .contextDone ∧ m'.rep.contextError = some e ∧
      m'.rep.state.rsf = none ∧ (∀ ev, mstep m' ev = none) := by
  obtain ⟨rep, ph⟩ := m
  simp only at hph hst
  subst hph
  refine ⟨{ rep := { rep with state := .contextDone, contextError := some e },
            phase := .atLoop }, ?_, rfl, rfl, rfl, ?_⟩
  · rcases hst with hs | hs <;>
      simp [mstep, hs, ReplicationState.rsf, rsfPlanningErrorSelect, rsfWorkingWaitSelect]
  · intro ev
    cases ev <;> simp [mstep, ReplicationState.rsf]

/-- C8 witness: the theorem applied to the concrete machine blocked in
`WorkingWait`, with a concrete cancellation cause. -/
theorem cancellation_to_context_done_witness :
    ∃ m', mstep { rep := repWW, phase := .atLoop }
        (.waitEv (.ctxDone (.other "context canceled"))) = some m' ∧
      m'.rep.state = .contextDone ∧ m'.rep.contextError = some (.other "context canceled") ∧
      m'.rep.state.rsf = none ∧ (∀ ev, mstep m' ev = none) :=
  cancellation_to_context_done { rep := repWW, phase := .atLoop }
    (.other "context canceled") rfl (Or.inr rfl)

/-- An empty `Working` machine for the C4 witness. -/
def mEmptyW : MState :=
  { rep := { state := .working, pending := [], completed := [], active := none,
             planningError := none, contextError := none },
    phase := .atLoop }

/-- C4 witness: the theorem applied to the empty working queue (immediate
`Completed`) and to the concrete one-item queue. -/
theorem working_selection_witness :
    mstep mEmptyW .tick =
      some { rep := { mEmptyW.rep with state := .completed }, phase := .atLoop } ∧
    (∃ hd tl, List.insertionSort itemLe mRun1.rep.pending = hd :: tl ∧
      mstep mRun1 .tick =
        some { rep := { mRun1.rep with active := some hd, pending := tl },
               phase := .selected } ∧
      List.Perm (hd :: tl) mRun1.rep.pending ∧
      List.Pairwise specLe (hd :: tl)) := by
  constructor
  · exact (working_selection mEmptyW rfl rfl rfl (by decide)).1 rfl
  · exact (working_selection mRun1 rfl rfl rfl (by decide)).2 (by decide)

/-- C7: during Planning, a `FilteredError` from the receiver's
version-list call makes the loop body skip that filesystem, and a skipped
filesystem contributes nothing to either bucket — planning a list with it
equals planning the list without it, so all remaining sender filesystems
are still planned; any non-filtered error from that call aborts the loop
with the error, and a planning-loop error (with both list calls
succeeding) sends the whole replication to `PlanningError` recording the
error. -/
theorem filtered_error_skips_filesystem (env : PlanEnv) :
    (∀ rfss fs e sv, env.senderVersions fs.path = .ok sv → ¬ sv.length ≤ 1 →
      (rfss.any fun rfs => rfs.path = fs.path) = true →
      env.receiverVersions fs.path = .error e →
      (e.isFiltered = true → planFilesystem env rfss fs = .ok .skip) ∧
      (e.isFiltered = false → planFilesystem env rfss fs = .error e)) ∧
    (∀ rfss fs pnd cmp l1 l2, planFilesystem env rfss fs = .ok .skip →
      planLoop env rfss (l1 ++ fs :: l2) pnd cmp = planLoop env rfss (l1 ++ l2) pnd cmp) ∧
    (∀ rfss fs e l pnd cmp, planFilesystem env rfss fs = .error e →
      planLoop env rfss (fs :: l) pnd cmp = .error e) ∧
    (∀ r e sfss rfss, env.senderFilesystems = .ok sfss →
      env.receiverFilesystems = .ok rfss →
      planLoop env rfss sfss [] [] = .error e →
      rsfPlanning env r = { r with planningError := some e, state := .planningError }) := by
  refine ⟨?_, ?_, ?_, ?_⟩
  · intro rfss fs e sv hsv hlen hex hrv
    constructor
    · intro hf
      simp only [planFilesystem, hsv]
      rw [if_neg hlen]
      simp only [planReceiverVersions, hex, if_true, hrv, hf, Bool.true_eq_false]
    · intro hf
      simp only [planFilesystem, hsv]
      rw [if_neg hlen]
      simp only [planReceiverVersions, hex, if_true, hrv, hf, Bool.false_eq_true, if_false]
  · intro rfss fs pnd cmp l1 l2 hskip
    induction l1 generalizing pnd cmp with
    | nil => simp only [List.nil_append, planLoop, hskip]
    | cons g gs ih =>
      simp only [List.cons_append, planLoop]
      rcases hg : planFilesystem env rfss g with e | rq
      · rfl
      · rcases rq with _ | q | q
        · exact ih _ _
        · exact ih _ _
        · exact ih _ _
  · intro rfss fs e l pnd cmp herr
    simp only [planLoop, herr]
  · intro r e sfss rfss hsf hrf hpl
    simp only [rsfPlanning, hsf, hrf, hpl]

/-- Second sender filesystem for the C7 witness. -/
def fsB : Filesystem := { path := "tank/b", resumeToken := "" }

/-- C7 witness fixture: the receiver filters out `tank/b` with a
`FilteredError`. -/
def env1 : PlanEnv :=
  { senderFilesystems := .ok [fsA, fsB], receiverFilesystems := .ok [fsA, fsB],
    senderVersions := fun _ => .ok [v1, v2],
    receiverVersions := fun p =>
      if p = "tank/b" then .error (.filtered "receiver ignores filesystem") else .ok [],
    incrementalPath := fun _ _ => (some [v1, v2], none),
    resolveConflict := fun _ => (none, "") }

/-- C7 witness fixture: the receiver's version-list call fails with a
non-filtered error. -/
def env2 : PlanEnv :=
  { senderFilesystems := .ok [fsA], receiverFilesystems := .ok [fsA],
    senderVersions := fun _ => .ok [v1, v2],
    receiverVersions := fun _ => .error (.other "receiver down"),
    incrementalPath := fun _ _ => (some [v1, v2], none),
    resolveConflict := fun _ => (none, "") }

/-- C7 witness: `tank/b` is silently skipped (planning with it equals
planning without it), while a non-filtered receiver error sends the whole
replication to `PlanningError` with that error recorded. -/
theorem filtered_error_skips_filesystem_witness :
    planFilesystem env1 [fsA, fsB] fsB = .ok .skip ∧
    planLoop env1 [fsA, fsB] ([fsA] ++ fsB :: []) [] [] =
      planLoop env1 [fsA, fsB] ([fsA] ++ []) [] [] ∧
    rsfPlanning env2 Replication.start =
      { Replication.start with planningError := some (.other "receiver down"),
                               state := .planningError } := by
  have hskip : planFilesystem env1 [fsA, fsB] fsB = .ok .skip :=
    ((filtered_error_skips_filesystem env1).1 [fsA, fsB] fsB
      (.filtered "receiver ignores filesystem") [v1, v2] rfl (by decide) (by decide) rfl).1
      rfl
  have herr : planFilesystem env2 [fsA] fsA = .error (.other "receiver down") :=
    ((filtered_error_skips_filesystem env2).1 [fsA] fsA
      (.other "receiver down") [v1, v2] rfl (by decide) (by decide) rfl).2 rfl
  refine ⟨hskip, ?_, ?_⟩
  · exact (filtered_error_skips_filesystem env1).2.1 [fsA, fsB] fsB [] [] [fsA] [] hskip
  · exact (filtered_error_skips_filesystem env2).2.2.2 Replication.start
      (.other "receiver down") [fsA] [fsA] rfl rfl
      ((filtered_error_skips_filesystem env2).2.2.1 [fsA] fsA
        (.other "receiver down") [] [] [] herr)

end Zrepl
